import Mathlib

/-!
Verification of libparam (`src/param/param.hpp`): a generic template class
`Param<T>` that persists a fixed-size record into byte-addressable EEPROM
with a one-byte CRC-8 checksum appended after the payload.

Embedding notes.
The EEPROM is modelled as a total function from addresses to cell contents;
`EEPROM.read` returns a `uint8_t`, so reads normalize the cell modulo 256,
and writes store their argument modulo 256 (the implicit conversion to
`uint8_t` of the write primitive).  The record type `T` is represented by
its byte image: the working copy `data` is a list of bytes and `sizeof(T)`
is the parameter `n`.  Each C++ method becomes a function from the pair
(instance state, medium state) to the updated pair together with its return
value, so that "does not touch the medium / the working copy" is expressed
as the corresponding component being returned unchanged.
-/

/-- The EEPROM: a byte-addressable medium, one `Nat` cell per address. -/
def Medium : Type := Nat → Nat

/-- `EEPROM.read(a)`: returns the cell as a `uint8_t`, i.e. modulo 256. -/
def readByte (m : Medium) (a : Nat) : Nat := m a % 256

/-- `EEPROM.write(a, v)`: stores `v` converted to `uint8_t` at address `a`. -/
def writeByte (m : Medium) (a v : Nat) : Medium :=
  fun x => if x = a then v % 256 else m x

/-- `EEPROM.get(a, data)` for an object of `k` bytes: the byte image read
from addresses `a, a+1, ..., a+k-1`. -/
def mediumGet (m : Medium) (a : Nat) : Nat → List Nat
  | 0 => []
  | Nat.succ k => readByte m a :: mediumGet m (a + 1) k

/-- `EEPROM.put(a, data)`: writes the byte image `bs` to consecutive
addresses starting at `a`. -/
def mediumPut (m : Medium) (a : Nat) : List Nat → Medium
  | [] => m
  | b :: bs => mediumPut (writeByte m a b) (a + 1) bs

/-- Modelled from the spec: one shift step of the external checksum class
`crc8` from `<generic/crc8.hpp>`, which is not part of this repository.
The spec fixes it only as a deterministic CRC-8; we use the plain CRC-8
polynomial 0x07 processed most-significant bit first. -/
def crcStep (c : Nat) : Nat :=
  if 128 ≤ c then ((c * 2) % 256) ^^^ 7 else c * 2

/-- Modelled from the spec: the per-byte update of the CRC-8, eight shift
steps after folding the input byte into the running remainder. -/
def crcStepByte (c b : Nat) : Nat :=
  crcStep (crcStep (crcStep (crcStep (crcStep (crcStep (crcStep (crcStep
    (c ^^^ b % 256))))))))

/-- Modelled from the spec: `crc8().calc(bytes, len)` — the external pure
checksum function `crc8(bytes) -> uint8`, initial remainder 0. -/
def crc8 (bs : List Nat) : Nat := bs.foldl crcStepByte 0

/-- The instance state of `Param<T>` where `n = sizeof(T)`: the EEPROM
start address `addr` (a `uint8_t` field) and the working copy `data`
(the byte image of the public member `T data`). -/
structure Param (n : Nat) where
  addr : Nat
  data : List Nat
deriving Repr, DecidableEq

/-- The constructor `Param(uint8_t _addr)`: the argument is received as a
`uint8_t` (hence reduced modulo 256), stored in `addr`, and the body calls
`clear()`, zeroing the working copy.  No medium access occurs. -/
def Param.init (n : Nat) (a : Nat) : Param n :=
  { addr := a % 256, data := List.replicate n 0 }

/-- `clear()`: `memset(&data, 0, sizeof(T))`.  The medium is passed through
untouched. -/
def Param.clear (p : Param n) (m : Medium) : Param n × Medium :=
  ({ addr := p.addr, data := List.replicate n 0 }, m)

/-- `read()`: `EEPROM.get(addr, data)` overwrites the working copy with the
`n` payload bytes at `addr`, then the CRC-8 of the freshly read copy is
compared with the stored byte at `addr + sizeof(data)`.  Returns the
updated instance, the untouched medium, and the comparison result. -/
def Param.read (p : Param n) (m : Medium) : Param n × Medium × Bool :=
  let d := mediumGet m p.addr n
  ({ addr := p.addr, data := d }, m, crc8 d == readByte m (p.addr + n))

/-- `write()`: `EEPROM.put(addr, data)` stores the working copy, then
`EEPROM.write(addr + sizeof(data), crc)` stores its CRC-8 right after it.
The instance state is unchanged. -/
def Param.write (p : Param n) (m : Medium) : Param n × Medium :=
  (p, writeByte (mediumPut m p.addr p.data) (p.addr + n) (crc8 p.data))

/-- `discard()`: reads the stored checksum byte at `addr + sizeof(data)`,
and writes back its bitwise complement (`~` on a `uint8_t` value `r`
stored through a `uint8_t` write is `255 - r`).  The instance state is
unchanged. -/
def Param.discard (p : Param n) (m : Medium) : Param n × Medium :=
  (p, writeByte m (p.addr + n) (255 - readByte m (p.addr + n)))

/-- `size()`: returns `sizeof(T) + sizeof(uint8_t)`.  Neither the instance
state nor the medium is touched. -/
def Param.size (p : Param n) (m : Medium) : Param n × Medium × Nat :=
  (p, m, n + 1)

/-- All entries of a byte image are genuine byte values. -/
def BytesOK (bs : List Nat) : Prop := ∀ b ∈ bs, b < 256

instance : DecidablePred BytesOK := fun bs =>
  inferInstanceAs (Decidable (∀ b ∈ bs, b < 256))

/-! ### Basic medium lemmas -/

lemma writeByte_self (m : Medium) (a v : Nat) : writeByte m a v a = v % 256 := by
  simp [writeByte]

lemma writeByte_other (m : Medium) (a v x : Nat) (hx : x ≠ a) :
    writeByte m a v x = m x := by
  simp [writeByte, hx]

lemma readByte_writeByte_self (m : Medium) (a v : Nat) :
    readByte (writeByte m a v) a = v % 256 := by
  simp [readByte, writeByte]

lemma readByte_writeByte_other (m : Medium) (a v x : Nat) (hx : x ≠ a) :
    readByte (writeByte m a v) x = readByte m x := by
  simp [readByte, writeByte, hx]

lemma readByte_lt (m : Medium) (a : Nat) : readByte m a < 256 :=
  Nat.mod_lt _ (by norm_num)

lemma mediumPut_apply_lt (bs : List Nat) (m : Medium) (a x : Nat) (hx : x < a) :
    mediumPut m a bs x = m x := by
  induction bs generalizing m a with
  | nil => rfl
  | cons b bs ih =>
      rw [mediumPut, ih _ _ (by omega)]
      exact writeByte_other m a b x (Nat.ne_of_lt hx)

lemma mediumPut_apply_ge (bs : List Nat) (m : Medium) (a x : Nat)
    (hx : a + bs.length ≤ x) : mediumPut m a bs x = m x := by
  induction bs generalizing m a with
  | nil => rfl
  | cons b bs ih =>
      have hx' : a + 1 + bs.length ≤ x := by
        simpa [List.length_cons, Nat.add_comm, Nat.add_assoc, Nat.add_left_comm]
          using hx
      rw [mediumPut, ih _ _ hx']
      exact writeByte_other m a b x (by omega)

lemma mediumGet_length (m : Medium) (a k : Nat) :
    (mediumGet m a k).length = k := by
  induction k generalizing a with
  | zero => rfl
  | succ k ih => simp [mediumGet, ih]

lemma mediumGet_congr (m1 m2 : Medium) (a k : Nat)
    (h : ∀ x, a ≤ x → x < a + k → readByte m1 x = readByte m2 x) :
    mediumGet m1 a k = mediumGet m2 a k := by
  induction k generalizing a with
  | zero => rfl
  | succ k ih =>
      rw [mediumGet, mediumGet, h a (Nat.le_refl a) (by omega)]
      congr 1
      exact ih (a + 1) (fun x h1 h2 => h x (by omega) (by omega))

lemma mediumGet_writeByte_out (m : Medium) (a k x w : Nat)
    (hx : x < a ∨ a + k ≤ x) :
    mediumGet (writeByte m x w) a k = mediumGet m a k := by
  apply mediumGet_congr
  intro y h1 h2
  exact readByte_writeByte_other m x w y (by omega)

lemma mediumGet_put (bs : List Nat) (m : Medium) (a : Nat) (hb : BytesOK bs) :
    mediumGet (mediumPut m a bs) a bs.length = bs := by
  induction bs generalizing m a with
  | nil => rfl
  | cons b bs ih =>
      rw [List.length_cons, mediumGet, mediumPut]
      have hhead : readByte (mediumPut (writeByte m a b) (a + 1) bs) a
          = b := by
        unfold readByte
        rw [mediumPut_apply_lt bs _ _ _ (by omega)]
        have : b % 256 = b := Nat.mod_eq_of_lt (hb b (by simp))
        simp [writeByte, this]
      rw [hhead, ih _ _ (fun x hx => hb x (by simp [hx]))]

lemma mediumPut_readByte_in (bs : List Nat) (m : Medium) (a i : Nat)
    (hi : i < bs.length) :
    readByte (mediumPut m a bs) (a + i) = bs.getD i 0 % 256 := by
  induction bs generalizing m a i with
  | nil => simp at hi
  | cons b bs ih =>
      cases i with
      | zero =>
          rw [mediumPut]
          have := mediumPut_apply_lt bs (writeByte m a b) (a + 1) a (by omega)
          simp only [Nat.add_zero, readByte, this, writeByte, if_pos rfl]
          simp
      | succ j =>
          rw [mediumPut]
          have hj : j < bs.length := by simpa using hi
          have : a + (j + 1) = (a + 1) + j := by omega
          rw [this, ih _ _ _ hj]
          rfl

lemma mediumGet_writeByte_set (m : Medium) (a k i w : Nat) (hi : i < k) :
    mediumGet (writeByte m (a + i) w) a k = (mediumGet m a k).set i (w % 256) := by
  induction k generalizing a i with
  | zero => simp at hi
  | succ k ih =>
      cases i with
      | zero =>
          rw [mediumGet, mediumGet]
          simp only [Nat.add_zero, List.set_cons_zero]
          rw [readByte_writeByte_self]
          congr 1
          exact mediumGet_writeByte_out m (a + 1) k a w (Or.inl (Nat.lt_succ_self a))
      | succ j =>
          rw [mediumGet, mediumGet]
          have hj : j < k := by omega
          have haddr : a + (j + 1) = (a + 1) + j := by omega
          rw [List.set_cons_succ, readByte_writeByte_other m _ w a (by omega),
            haddr, ih _ _ hj]

/-! ### CRC-8 lemmas: range, injectivity of one update step, and a change
in any single byte of the message changing the checksum. -/

lemma xor_lt_256 (a b : Nat) (ha : a < 256) (hb : b < 256) : a ^^^ b < 256 := by
  have h : a ^^^ b < 2 ^ 8 := Nat.bitwise_lt (by omega) (by omega)
  omega

lemma crcStep_lt (c : Nat) (h : c < 256) : crcStep c < 256 := by
  unfold crcStep
  split
  · exact xor_lt_256 _ _ (Nat.mod_lt _ (by norm_num)) (by norm_num)
  · omega

/-- Explicit inverse of `crcStep` on byte values; the CRC polynomial 0x07 is
odd, so one shift step is a bijection on bytes. -/
def crcStepInv (d : Nat) : Nat :=
  if d % 2 = 1 then ((d ^^^ 7) / 2) + 128 else d / 2

set_option maxRecDepth 2000 in
lemma crcStepInv_crcStep : ∀ c < 256, crcStepInv (crcStep c) = c := by decide

lemma crcStep_inj (c1 c2 : Nat) (h1 : c1 < 256) (h2 : c2 < 256)
    (h : crcStep c1 = crcStep c2) : c1 = c2 := by
  have e1 := crcStepInv_crcStep c1 h1
  have e2 := crcStepInv_crcStep c2 h2
  rw [← e1, ← e2, h]

lemma crcStep_pack (c1 c2 : Nat) (h : c1 < 256 ∧ c2 < 256 ∧ c1 ≠ c2) :
    crcStep c1 < 256 ∧ crcStep c2 < 256 ∧ crcStep c1 ≠ crcStep c2 :=
  ⟨crcStep_lt _ h.1, crcStep_lt _ h.2.1,
    fun he => h.2.2 (crcStep_inj c1 c2 h.1 h.2.1 he)⟩

lemma crcStepByte_lt (c b : Nat) (h : c < 256) : crcStepByte c b < 256 := by
  unfold crcStepByte
  apply crcStep_lt; apply crcStep_lt; apply crcStep_lt; apply crcStep_lt
  apply crcStep_lt; apply crcStep_lt; apply crcStep_lt; apply crcStep_lt
  exact xor_lt_256 _ _ h (Nat.mod_lt _ (by norm_num))

lemma crcStepByte_inj_left (c1 c2 b : Nat) (h1 : c1 < 256) (h2 : c2 < 256)
    (hne : c1 ≠ c2) : crcStepByte c1 b ≠ crcStepByte c2 b := by
  have h0 : c1 ^^^ b % 256 ≠ c2 ^^^ b % 256 := by
    intro h
    exact hne (Nat.xor_left_inj.mp h)
  have l1 : c1 ^^^ b % 256 < 256 := xor_lt_256 _ _ h1 (Nat.mod_lt _ (by norm_num))
  have l2 : c2 ^^^ b % 256 < 256 := xor_lt_256 _ _ h2 (Nat.mod_lt _ (by norm_num))
  have p1 := crcStep_pack _ _ ⟨l1, l2, h0⟩
  have p2 := crcStep_pack _ _ p1
  have p3 := crcStep_pack _ _ p2
  have p4 := crcStep_pack _ _ p3
  have p5 := crcStep_pack _ _ p4
  have p6 := crcStep_pack _ _ p5
  have p7 := crcStep_pack _ _ p6
  have p8 := crcStep_pack _ _ p7
  unfold crcStepByte
  exact p8.2.2

lemma crcStepByte_inj_right (c b1 b2 : Nat) (hc : c < 256)
    (hb : b1 % 256 ≠ b2 % 256) : crcStepByte c b1 ≠ crcStepByte c b2 := by
  have h0 : c ^^^ b1 % 256 ≠ c ^^^ b2 % 256 := by
    intro h
    exact hb (Nat.xor_right_inj.mp h)
  have l1 : c ^^^ b1 % 256 < 256 := xor_lt_256 _ _ hc (Nat.mod_lt _ (by norm_num))
  have l2 : c ^^^ b2 % 256 < 256 := xor_lt_256 _ _ hc (Nat.mod_lt _ (by norm_num))
  have p1 := crcStep_pack _ _ ⟨l1, l2, h0⟩
  have p2 := crcStep_pack _ _ p1
  have p3 := crcStep_pack _ _ p2
  have p4 := crcStep_pack _ _ p3
  have p5 := crcStep_pack _ _ p4
  have p6 := crcStep_pack _ _ p5
  have p7 := crcStep_pack _ _ p6
  have p8 := crcStep_pack _ _ p7
  unfold crcStepByte
  exact p8.2.2

lemma foldl_crc_lt (bs : List Nat) (c : Nat) (hc : c < 256) :
    bs.foldl crcStepByte c < 256 := by
  induction bs generalizing c with
  | nil => exact hc
  | cons b bs ih =>
      rw [List.foldl_cons]
      exact ih (crcStepByte c b) (crcStepByte_lt c b hc)

lemma crc8_lt (bs : List Nat) : crc8 bs < 256 :=
  foldl_crc_lt bs 0 (by norm_num)

lemma foldl_crc_ne (bs : List Nat) (c1 c2 : Nat) (h1 : c1 < 256)
    (h2 : c2 < 256) (hne : c1 ≠ c2) :
    bs.foldl crcStepByte c1 ≠ bs.foldl crcStepByte c2 := by
  induction bs generalizing c1 c2 with
  | nil => exact hne
  | cons b bs ih =>
      rw [List.foldl_cons, List.foldl_cons]
      exact ih (crcStepByte c1 b) (crcStepByte c2 b)
        (crcStepByte_lt c1 b h1) (crcStepByte_lt c2 b h2)
        (crcStepByte_inj_left c1 c2 b h1 h2 hne)

lemma foldl_crc_set_ne (v : List Nat) (c i w : Nat) (hc : c < 256)
    (hi : i < v.length) (hw : w % 256 ≠ v.getD i 0 % 256) :
    (v.set i w).foldl crcStepByte c ≠ v.foldl crcStepByte c := by
  induction v generalizing c i with
  | nil => simp at hi
  | cons b bs ih =>
      cases i with
      | zero =>
          simp only [List.getD_cons_zero] at hw
          simp only [List.set_cons_zero, List.foldl_cons]
          exact foldl_crc_ne bs (crcStepByte c w) (crcStepByte c b)
            (crcStepByte_lt c w hc) (crcStepByte_lt c b hc)
            (crcStepByte_inj_right c w b hc hw)
      | succ j =>
          simp only [List.getD_cons_succ] at hw
          simp only [List.set_cons_succ, List.foldl_cons]
          exact ih (crcStepByte c b) j (crcStepByte_lt c b hc)
            (by simpa using hi) hw

lemma crc8_set_ne (v : List Nat) (i w : Nat) (hi : i < v.length)
    (hw : w % 256 ≠ v.getD i 0 % 256) : crc8 (v.set i w) ≠ crc8 v :=
  foldl_crc_set_ne v 0 i w (by norm_num) hi hw

/-! ### Helper lemmas about `write` and `discard` -/

lemma mediumPut_apply_in (bs : List Nat) (m : Medium) (a i : Nat)
    (hi : i < bs.length) :
    mediumPut m a bs (a + i) = bs.getD i 0 % 256 := by
  induction bs generalizing m a i with
  | nil => simp at hi
  | cons b bs ih =>
      cases i with
      | zero =>
          rw [mediumPut]
          have := mediumPut_apply_lt bs (writeByte m a b) (a + 1) a (by omega)
          simp only [Nat.add_zero, this, writeByte, if_pos rfl]
          simp
      | succ j =>
          rw [mediumPut]
          have hj : j < bs.length := by simpa using hi
          have hrw : a + (j + 1) = (a + 1) + j := by omega
          rw [hrw, ih _ _ _ hj]
          rfl

lemma getD_lt_of_bytesOK (v : List Nat) (i : Nat) (hi : i < v.length)
    (hv : BytesOK v) : v.getD i 0 < 256 := by
  rw [List.getD_eq_getElem v 0 hi]
  exact hv _ (List.getElem_mem hi)

set_option maxRecDepth 2000 in
lemma sub_eq_xor_255 : ∀ r < 256, 255 - r = 255 ^^^ r := by decide

/-- After `write()`, reading back the payload region returns the working
copy that was written. -/
lemma write_mediumGet (n a : Nat) (v : List Nat) (m : Medium)
    (hlen : v.length = n) (hv : BytesOK v) :
    mediumGet ((Param.write (⟨a, v⟩ : Param n) m).2) a n = v := by
  show mediumGet (writeByte (mediumPut m a v) (a + n) (crc8 v)) a n = v
  rw [mediumGet_writeByte_out _ _ _ _ _ (Or.inr (Nat.le_refl (a + n)))]
  subst hlen
  exact mediumGet_put v m a hv

/-- After `write()`, the stored checksum byte is the CRC-8 of the working
copy. -/
lemma write_checkByte (n a : Nat) (v : List Nat) (m : Medium) :
    readByte ((Param.write (⟨a, v⟩ : Param n) m).2) (a + n) = crc8 v := by
  show readByte (writeByte (mediumPut m a v) (a + n) (crc8 v)) (a + n) = crc8 v
  rw [readByte_writeByte_self]
  exact Nat.mod_eq_of_lt (crc8_lt v)

/-- After `write()`, a payload byte read back individually is the
corresponding working-copy byte. -/
lemma write_readByte_in (n a : Nat) (v : List Nat) (m : Medium) (i : Nat)
    (hlen : v.length = n) (hv : BytesOK v) (hi : i < n) :
    readByte ((Param.write (⟨a, v⟩ : Param n) m).2) (a + i) = v.getD i 0 := by
  show readByte (writeByte (mediumPut m a v) (a + n) (crc8 v)) (a + i)
      = v.getD i 0
  rw [readByte_writeByte_other _ _ _ _ (by omega)]
  unfold readByte
  rw [mediumPut_apply_in v m a i (by omega)]
  have h := getD_lt_of_bytesOK v i (by omega) hv
  omega

/-! ### Claim theorems -/

/-- C1.  Round-trip: for every payload `v` of type `T` (a byte image of
length `sizeof(T)`) and every base address, after setting the working copy
to `v` and calling `write()` then `read()` on the same instance with no
intervening medium mutation, `read()` returns success (`true`) and the
working copy is byte-identical to `v`. -/
theorem param_write_read_round_trip (n a : Nat) (v : List Nat) (m : Medium)
    (hlen : v.length = n) (hv : BytesOK v) :
    (Param.read (⟨a, v⟩ : Param n)
        ((Param.write (⟨a, v⟩ : Param n) m).2)).2.2 = true ∧
    (Param.read (⟨a, v⟩ : Param n)
        ((Param.write (⟨a, v⟩ : Param n) m).2)).1.data = v := by
  have hget := write_mediumGet n a v m hlen hv
  have hchk := write_checkByte n a v m
  constructor
  · show (crc8 (mediumGet ((Param.write (⟨a, v⟩ : Param n) m).2) a n)
        == readByte ((Param.write (⟨a, v⟩ : Param n) m).2) (a + n)) = true
    rw [hget, hchk]
    exact beq_self_eq_true (crc8 v)
  · show mediumGet ((Param.write (⟨a, v⟩ : Param n) m).2) a n = v
    exact hget

/-- C1 witness at a concrete instance. -/
theorem param_write_read_round_trip_witness :
    (Param.read (⟨5, [3, 4]⟩ : Param 2)
        ((Param.write (⟨5, [3, 4]⟩ : Param 2) (fun _ => 9)).2)).2.2 = true ∧
    (Param.read (⟨5, [3, 4]⟩ : Param 2)
        ((Param.write (⟨5, [3, 4]⟩ : Param 2) (fun _ => 9)).2)).1.data
      = [3, 4] :=
  param_write_read_round_trip 2 5 [3, 4] (fun _ => 9) (by decide) (by decide)

/-- C2.  Discard invalidates: for every payload `v`, after `write(v)`
followed by `discard()` with no other medium mutation, the next `read()`
returns the checksum-mismatch result (`false`). -/
theorem param_write_discard_read_fails (n a : Nat) (v : List Nat) (m : Medium)
    (hlen : v.length = n) (hv : BytesOK v) :
    (Param.read (⟨a, v⟩ : Param n)
        ((Param.discard (⟨a, v⟩ : Param n)
          ((Param.write (⟨a, v⟩ : Param n) m).2)).2)).2.2 = false := by
  have hget := write_mediumGet n a v m hlen hv
  have hchk := write_checkByte n a v m
  show (crc8 (mediumGet ((Param.discard (⟨a, v⟩ : Param n)
        ((Param.write (⟨a, v⟩ : Param n) m).2)).2) a n)
      == readByte ((Param.discard (⟨a, v⟩ : Param n)
        ((Param.write (⟨a, v⟩ : Param n) m).2)).2) (a + n)) = false
  show (crc8 (mediumGet (writeByte ((Param.write (⟨a, v⟩ : Param n) m).2)
        (a + n) (255 - readByte ((Param.write (⟨a, v⟩ : Param n) m).2) (a + n)))
        a n)
      == readByte (writeByte ((Param.write (⟨a, v⟩ : Param n) m).2)
        (a + n) (255 - readByte ((Param.write (⟨a, v⟩ : Param n) m).2) (a + n)))
        (a + n)) = false
  rw [mediumGet_writeByte_out _ _ _ _ _ (Or.inr (Nat.le_refl (a + n))), hget,
    readByte_writeByte_self, hchk]
  have hlt : crc8 v < 256 := crc8_lt v
  have hmod : (255 - crc8 v) % 256 = 255 - crc8 v := Nat.mod_eq_of_lt (by omega)
  rw [hmod]
  have hne : crc8 v ≠ 255 - crc8 v := by omega
  exact beq_eq_false_iff_ne.mpr hne

/-- C2 witness at a concrete instance. -/
theorem param_write_discard_read_fails_witness :
    (Param.read (⟨5, [3, 4]⟩ : Param 2)
        ((Param.discard (⟨5, [3, 4]⟩ : Param 2)
          ((Param.write (⟨5, [3, 4]⟩ : Param 2) (fun _ => 9)).2)).2)).2.2
      = false :=
  param_write_discard_read_fails 2 5 [3, 4] (fun _ => 9) (by decide) (by decide)

lemma getD_replicate_zero (k i : Nat) : (List.replicate k 0).getD i 0 = 0 := by
  induction k generalizing i with
  | zero => cases i <;> rfl
  | succ k ih =>
      cases i with
      | zero => rfl
      | succ j => exact ih j

/-- C3.  Discard's medium effect: for every medium state, `discard()`
replaces the single byte at `base_address + sizeof(T)` by its bitwise
complement (within 8 bits, `255 ^^^ r`), leaves every other medium cell —
in particular all payload bytes in `[base_address, base_address + n)` —
unchanged, and does not touch the working copy. -/
theorem param_discard_medium_effect (n : Nat) (p : Param n) (m : Medium) :
    (Param.discard p m).1 = p ∧
    readByte (Param.discard p m).2 (p.addr + n)
      = 255 ^^^ readByte m (p.addr + n) ∧
    ∀ x, x ≠ p.addr + n → (Param.discard p m).2 x = m x := by
  refine ⟨rfl, ?_, ?_⟩
  · show readByte (writeByte m (p.addr + n)
        (255 - readByte m (p.addr + n))) (p.addr + n)
      = 255 ^^^ readByte m (p.addr + n)
    rw [readByte_writeByte_self]
    have h := readByte_lt m (p.addr + n)
    rw [Nat.mod_eq_of_lt (by omega)]
    exact sub_eq_xor_255 _ h
  · intro x hx
    exact writeByte_other m _ _ x hx

/-- C3 witness at a concrete instance. -/
theorem param_discard_medium_effect_witness :
    (Param.discard (⟨0, [7]⟩ : Param 1) (fun _ => 33)).1
      = (⟨0, [7]⟩ : Param 1) ∧
    readByte (Param.discard (⟨0, [7]⟩ : Param 1) (fun _ => 33)).2 (0 + 1)
      = 255 ^^^ readByte (fun _ => 33) (0 + 1) ∧
    (Param.discard (⟨0, [7]⟩ : Param 1) (fun _ => 33)).2 5
      = (fun _ => 33 : Medium) 5 := by
  have h := param_discard_medium_effect 1 (⟨0, [7]⟩ : Param 1) (fun _ => 33)
  exact ⟨h.1, h.2.1, h.2.2 5 (by decide)⟩

/-- C4.  Double discard is the identity on the medium at the byte level:
every byte read back after two consecutive `discard()` calls equals the
byte read back before them (the checksum cell is complemented twice), and
consequently the valid/invalid status observable via `read()` is
unchanged. -/
theorem param_double_discard_identity (n : Nat) (p : Param n) (m : Medium) :
    (∀ x, readByte (Param.discard p ((Param.discard p m).2)).2 x
        = readByte m x) ∧
    (Param.read p ((Param.discard p ((Param.discard p m).2)).2)).2.2
      = (Param.read p m).2.2 := by
  have key : ∀ x, readByte (Param.discard p ((Param.discard p m).2)).2 x
      = readByte m x := by
    intro x
    by_cases hx : x = p.addr + n
    · subst hx
      show readByte (writeByte ((Param.discard p m).2) (p.addr + n)
          (255 - readByte ((Param.discard p m).2) (p.addr + n))) (p.addr + n)
        = readByte m (p.addr + n)
      have hr := readByte_lt m (p.addr + n)
      have h1 : readByte ((Param.discard p m).2) (p.addr + n)
          = 255 - readByte m (p.addr + n) := by
        show readByte (writeByte m (p.addr + n)
            (255 - readByte m (p.addr + n))) (p.addr + n) = _
        rw [readByte_writeByte_self]
        omega
      rw [readByte_writeByte_self, h1]
      omega
    · show readByte (writeByte ((Param.discard p m).2) (p.addr + n)
          (255 - readByte ((Param.discard p m).2) (p.addr + n))) x
        = readByte m x
      rw [readByte_writeByte_other _ _ _ _ hx]
      show readByte (writeByte m (p.addr + n)
          (255 - readByte m (p.addr + n))) x = readByte m x
      rw [readByte_writeByte_other _ _ _ _ hx]
  refine ⟨key, ?_⟩
  show (crc8 (mediumGet (Param.discard p ((Param.discard p m).2)).2 p.addr n)
      == readByte (Param.discard p ((Param.discard p m).2)).2 (p.addr + n))
    = (crc8 (mediumGet m p.addr n) == readByte m (p.addr + n))
  rw [mediumGet_congr _ m p.addr n (fun x h1 h2 => key x), key (p.addr + n)]

/-- C5.  Read always overwrites the working copy: for every medium state,
`read()` copies the `sizeof(T)` payload bytes at `base_address` from the
medium into the working copy unconditionally — the equation holds whether
the returned status is success or checksum mismatch, so the working copy is
not preserved on failure — and `read()` leaves the medium unchanged. -/
theorem param_read_overwrites_working_copy (n : Nat) (p : Param n)
    (m : Medium) :
    (Param.read p m).1.data = mediumGet m p.addr n ∧
    (Param.read p m).2.1 = m :=
  ⟨rfl, rfl⟩

/-- C6.  Clear semantics: after `clear()` every byte of the working copy is
zero and the medium is untouched, so a subsequent `read()` behaves exactly
as a `read()` on the original instance would — it reflects whatever was
last written to the medium, not the cleared state. -/
theorem param_clear_semantics (n : Nat) (p : Param n) (m : Medium) :
    (Param.clear p m).1.data = List.replicate n 0 ∧
    (∀ i, ((Param.clear p m).1.data).getD i 0 = 0) ∧
    (Param.clear p m).2 = m ∧
    Param.read ((Param.clear p m).1) ((Param.clear p m).2) = Param.read p m :=
  ⟨rfl, fun i => getD_replicate_zero n i, rfl, rfl⟩

/-- C7.  Span correctness and purity: `size()` returns exactly
`sizeof(T) + 1` and touches neither the medium nor the instance state. -/
theorem param_size_span (n : Nat) (p : Param n) (m : Medium) :
    (Param.size p m).2.2 = n + 1 ∧
    (Param.size p m).1 = p ∧
    (Param.size p m).2.1 = m :=
  ⟨rfl, rfl, rfl⟩

/-- C10.  Address truncation and immutability: the constructor stores the
base address in a `uint8_t` field, so the effective address is the argument
reduced modulo 256, the default-constructed address is 0, and no operation
(`clear`, `read`, `write`, `discard`, `size`) modifies the stored address
afterwards. -/
theorem param_addr_truncation_immutable (n a : Nat) (p : Param n)
    (m : Medium) :
    (Param.init n a).addr = a % 256 ∧
    (Param.init n 0).addr = 0 ∧
    (Param.clear p m).1.addr = p.addr ∧
    (Param.read p m).1.addr = p.addr ∧
    (Param.write p m).1.addr = p.addr ∧
    (Param.discard p m).1.addr = p.addr ∧
    (Param.size p m).1.addr = p.addr :=
  ⟨rfl, rfl, rfl, rfl, rfl, rfl, rfl⟩

/-- Modelled from the spec: `sizeof(UserData_t)` for the scenario record
type `{ uint32_t a[4]; uint8_t b; }` from the usage example.  Four 4-byte
fields plus one 1-byte field give 17 bytes under the packed layout of the
8-bit AVR targets this Arduino library is written for (there
`alignof(uint32_t) = 1`, so no padding is inserted). -/
def sizeofUserData : Nat := 4 * 4 + 1

set_option maxRecDepth 4000 in
/-- C8 counterexample: the claim asserts that `write()` on the scenario
record stores exactly 17 bytes, with the checksum at offset 16, i.e. that
`sizeof(T) = 16`.  In fact the record occupies 17 bytes (the claim forgets
the `uint8_t b` field), so the checksum lands at offset 17: on a medium
holding 1 in every cell, `write()` modifies offset 17. -/
theorem param_scenario_17_bytes_counterexample :
    sizeofUserData ≠ 16 ∧
    ((Param.write (Param.init sizeofUserData 0) (fun _ => 1)).2) 17
      ≠ (fun _ => 1 : Medium) 17 := by
  constructor
  · decide
  · decide

set_option maxRecDepth 4000 in
/-- C8 (amended).  Scenario layout: for the example record type
`{ uint32_t a[4]; uint8_t b; }` (`sizeof(T) = 17` bytes, packed) bound at
base address 0 with an all-zero working copy, `write()` stores exactly 18
bytes: the 17 zero payload bytes at offsets 0..16, then one checksum byte
at offset 17 equal to the CRC-8 of the 17 zero payload bytes; every other
medium cell is untouched. -/
theorem param_scenario_layout (m : Medium) (x : Nat) :
    ((Param.write (Param.init sizeofUserData 0) m).2) x
      = if x < 17 then 0
        else if x = 17 then crc8 (List.replicate 17 0)
        else m x := by
  show writeByte (mediumPut m 0 (List.replicate 17 0)) (0 + 17)
      (crc8 (List.replicate 17 0)) x
    = if x < 17 then 0
      else if x = 17 then crc8 (List.replicate 17 0)
      else m x
  rcases Nat.lt_trichotomy x 17 with hx | hx | hx
  · rw [if_pos hx, writeByte_other _ _ _ _ (by omega)]
    have h0 : x = 0 + x := by omega
    rw [h0, mediumPut_apply_in _ _ _ _ (by simp [List.length_replicate]; omega),
      getD_replicate_zero]
  · subst hx
    rw [if_neg (by omega), if_pos rfl, Nat.zero_add, writeByte_self]
    exact Nat.mod_eq_of_lt (crc8_lt _)
  · rw [if_neg (by omega), if_neg (by omega),
      writeByte_other _ _ _ _ (by omega),
      mediumPut_apply_ge _ _ _ _ (by simp only [List.length_replicate]; omega)]

/-- C9.  Single-bit corruption detection: for every payload `v`, after
`write(v)`, flipping any single bit `k` of the medium byte at any payload
offset `i` out-of-band and then calling `read()` yields the
checksum-mismatch result (`false`): the modelled CRC-8 detects every 1-bit
error. -/
theorem param_single_bit_corruption_detected (n a : Nat) (v : List Nat)
    (m : Medium) (i k : Nat) (hlen : v.length = n) (hv : BytesOK v)
    (hi : i < n) (hk : k < 8) :
    (Param.read (⟨a, v⟩ : Param n)
        (writeByte ((Param.write (⟨a, v⟩ : Param n) m).2) (a + i)
          (readByte ((Param.write (⟨a, v⟩ : Param n) m).2) (a + i)
            ^^^ 2 ^ k))).2.2 = false := by
  have hb := write_readByte_in n a v m i hlen hv hi
  have hgd : v.getD i 0 < 256 := getD_lt_of_bytesOK v i (by omega) hv
  have hklt : (2 : Nat) ^ k < 256 := by
    have h7 : (2 : Nat) ^ k ≤ 2 ^ 7 := Nat.pow_le_pow_right (by norm_num) (by omega)
    omega
  have hwlt : v.getD i 0 ^^^ 2 ^ k < 256 := xor_lt_256 _ _ hgd hklt
  rw [hb]
  show (crc8 (mediumGet (writeByte ((Param.write (⟨a, v⟩ : Param n) m).2)
        (a + i) (v.getD i 0 ^^^ 2 ^ k)) a n)
      == readByte (writeByte ((Param.write (⟨a, v⟩ : Param n) m).2)
        (a + i) (v.getD i 0 ^^^ 2 ^ k)) (a + n)) = false
  rw [mediumGet_writeByte_set _ a n i _ hi, write_mediumGet n a v m hlen hv,
    Nat.mod_eq_of_lt hwlt, readByte_writeByte_other _ _ _ _ (by omega),
    write_checkByte n a v m]
  apply beq_eq_false_iff_ne.mpr
  apply crc8_set_ne v i _ (by omega)
  rw [Nat.mod_eq_of_lt hwlt, Nat.mod_eq_of_lt hgd]
  intro h
  have h0 : v.getD i 0 ^^^ 2 ^ k = v.getD i 0 ^^^ 0 := by
    rw [Nat.xor_zero]
    exact h
  have h2 : (2 : Nat) ^ k = 0 := Nat.xor_right_inj.mp h0
  have hpos : 0 < (2 : Nat) ^ k := pow_pos (by norm_num) k
  omega

/-- C9 witness at a concrete instance: payload `[3, 4]` at address 0,
flipping bit 0 of the payload byte at offset 1. -/
theorem param_single_bit_corruption_detected_witness :
    (Param.read (⟨0, [3, 4]⟩ : Param 2)
        (writeByte ((Param.write (⟨0, [3, 4]⟩ : Param 2) (fun _ => 9)).2) (0 + 1)
          (readByte ((Param.write (⟨0, [3, 4]⟩ : Param 2) (fun _ => 9)).2) (0 + 1)
            ^^^ 2 ^ 0))).2.2 = false :=
  param_single_bit_corruption_detected 2 0 [3, 4] (fun _ => 9) 1 0
    (by decide) (by decide) (by decide) (by decide)
